import Mathlib

/-!
Verification of the bc_aeon execution engine against its specification.

The definitions below are shallow embeddings of the Python source:
* the persisted model registry and its reference counting
  (`src/build/lib/aeon/main.py`, `_cleanup_stale_pids`,
  `register_models_for_agent`, `unregister_models_for_agent`);
* the `Worker` engine state, milestone analysis, interrupt handling,
  history buffer and history formatter, and the executor chain with its
  retry loop (`src/aeon/core/worker.py`);
* the sandbox scheduler's resource quota computation and per-job cleanup
  (`src/aeon/tools/research.py`).
-/

namespace Aeon

/-- Model of Python `sep.join(parts)`. -/
def joinWith (sep : String) : List String → String
  | [] => ""
  | [x] => x
  | x :: xs => x ++ sep ++ joinWith sep xs

/-- Character-list infix test: `needle` occurs contiguously in `haystack`. -/
def charsInfix : List Char → List Char → Bool
  | needle, [] => needle.isEmpty
  | needle, c :: rest => needle.isPrefixOf (c :: rest) || charsInfix needle rest

/-- Model of Python `sub in s` (substring containment). -/
def containsSubstr (s sub : String) : Bool :=
  charsInfix sub.toList s.toList

/-- The ASCII single-quote character, used by Python `repr` of strings. -/
def pyStrQuote : String := (Char.ofNat 39).toString

/-- Python `str(list_of_strings)` rendering, e.g. `["a"]` prints with quotes. -/
def pyListRepr (l : List String) : String :=
  "[" ++ joinWith ", " (l.map (fun s => pyStrQuote ++ s ++ pyStrQuote)) ++ "]"

/-- Model of Python `s.strip()`: drop leading and trailing whitespace. -/
def pyStrip (s : String) : String :=
  String.mk (((s.toList.dropWhile Char.isWhitespace).reverse.dropWhile
    Char.isWhitespace).reverse)

/-- Model of Python `s.startswith(pre)`. -/
def pyStartsWith (s pre : String) : Bool :=
  pre.toList.isPrefixOf s.toList

/-! ## The persisted model registry (build/lib/aeon/main.py)

The registry file maps a model name to the list of agent PIDs using it.
Python dicts preserve insertion order and have unique keys, so the registry
is modelled as an association list whose well-formed states have `Nodup`
keys.  PID liveness (`_pid_exists`) is a parameter `alive`. -/

abbrev Pid := Nat
abbrev ModelName := String
abbrev Registry := List (ModelName × List Pid)

/-- Python `registry[model]` lookup (`model in registry` is `isSome`). -/
def lookupModel : Registry → ModelName → Option (List Pid)
  | [], _ => none
  | (k, v) :: rest, m => if k = m then some v else lookupModel rest m

/-- Python `registry[model] = pids`: replace the value if the key exists,
else append the new key at the end (dict insertion order). -/
def setModel : Registry → ModelName → List Pid → Registry
  | [], m, v => [(m, v)]
  | (k, w) :: rest, m, v =>
    if k = m then (k, v) :: rest else (k, w) :: setModel rest m v

/-- Python `del registry[model]`. -/
def delModel : Registry → ModelName → Registry
  | [], _ => []
  | (k, w) :: rest, m => if k = m then rest else (k, w) :: delModel rest m

/-- `_cleanup_stale_pids` (main.py lines 94-105): keep only live PIDs in
each entry; entries left with no live PID are dropped and their model name
collected in the `orphaned` list. -/
def cleanup_stale_pids (alive : Pid → Bool) : Registry → Registry × List ModelName
  | [] => ([], [])
  | (m, pids) :: rest =>
    let alivePids := pids.filter alive
    let (cleaned, orphaned) := cleanup_stale_pids alive rest
    if alivePids.isEmpty then (cleaned, m :: orphaned)
    else ((m, alivePids) :: cleaned, orphaned)

/-- Body of the `for model in models` loop of `register_models_for_agent`
(main.py lines 123-127): create the entry if missing, then append the PID
if it is not already an owner. -/
def registerOne (pid : Pid) (reg : Registry) (m : ModelName) : Registry :=
  let reg1 := if (lookupModel reg m).isSome then reg else reg ++ [(m, [])]
  let pids := (lookupModel reg1 m).getD []
  if pids.contains pid then reg1 else setModel reg1 m (pids ++ [pid])

/-- `register_models_for_agent` (main.py lines 114-133).  Returns the new
registry and the list of models unloaded by the trailing `for model in
orphaned` loop.  With an empty `models` list the function returns before
touching the registry. -/
def register_models_for_agent (alive : Pid → Bool) (pid : Pid)
    (models : List ModelName) (reg : Registry) : Registry × List ModelName :=
  if models.isEmpty then (reg, [])
  else
    let (cleaned, orphaned) := cleanup_stale_pids alive reg
    (models.foldl (registerOne pid) cleaned, orphaned)

/-- Body of the `for model in models` loop of `unregister_models_for_agent`
(main.py lines 146-156), threading the registry and the `to_unload` list. -/
def unregisterOne (pid : Pid) (st : Registry × List ModelName)
    (m : ModelName) : Registry × List ModelName :=
  match lookupModel st.1 m with
  | none => st
  | some pids =>
    if pids.contains pid then
      let pidsAfter := pids.erase pid
      if pidsAfter.isEmpty then
        (delModel st.1 m, if st.2.contains m then st.2 else st.2 ++ [m])
      else (setModel st.1 m pidsAfter, st.2)
    else st

/-- `unregister_models_for_agent` (main.py lines 135-164).  Returns the new
registry and the `to_unload` list (orphans found by the stale-PID pruning
followed by models whose last owner just unregistered). -/
def unregister_models_for_agent (alive : Pid → Bool) (pid : Pid)
    (models : List ModelName) (reg : Registry) : Registry × List ModelName :=
  if models.isEmpty then (reg, [])
  else
    let (cleaned, orphaned) := cleanup_stale_pids alive reg
    models.foldl (unregisterOne pid) (cleaned, orphaned)

/-- One mutation of the registry file: a `register_models_for_agent` or an
`unregister_models_for_agent` call by some process, with the PID-liveness
observed under that call's exclusive lock. -/
inductive RegistryOp where
  | registerCall (alive : Pid → Bool) (pid : Pid) (models : List ModelName)
  | unregisterCall (alive : Pid → Bool) (pid : Pid) (models : List ModelName)

/-- Apply one mutation to the registry state. -/
def applyOp (reg : Registry) : RegistryOp → Registry
  | .registerCall alive pid models => (register_models_for_agent alive pid models reg).1
  | .unregisterCall alive pid models => (unregister_models_for_agent alive pid models reg).1

/-- Apply a sequence of mutations, oldest first. -/
def applyOps (reg : Registry) (ops : List RegistryOp) : Registry :=
  ops.foldl applyOp reg

/-- Well-formed registry states: unique keys (a Python dict), no duplicate
owner PIDs, and no entry with an empty owner list. -/
def RegWF (reg : Registry) : Prop :=
  (reg.map Prod.fst).Nodup ∧ (∀ e ∈ reg, e.2.Nodup) ∧ (∀ e ∈ reg, e.2 ≠ [])

/-! ## Worker engine state (aeon/core/worker.py)

The mutable state of a `Worker.run` invocation: the per-instance
attributes (`current_plan`, `open_files`, `recent_history`,
`completed_milestones`, `last_observation`) plus the `run`-local
`objective` string and `iteration` counter. -/

/-- One record of `self.recent_history`:
`{"iteration": ..., "action": ..., "summary": ...}`. -/
structure HistoryStep where
  iteration : Nat
  action : String
  summary : String
deriving DecidableEq

structure WorkerState where
  currentPlan : String
  openFiles : List (String × String)
  recentHistory : List HistoryStep
  completedMilestones : List String
  lastObservation : String
  objective : String
  iteration : Nat
deriving DecidableEq

/-- `Worker._reset_state` (worker.py lines 235-240): clears the plan, the
open files, the history and the milestones and replaces the last
observation.  The `objective` and the loop's `iteration` counter are not
attributes touched by this method. -/
def reset_state (s : WorkerState) (initialObservation : String) : WorkerState :=
  { s with
    currentPlan := "Initial state. Need to formulate a plan.",
    openFiles := [],
    recentHistory := [],
    completedMilestones := [],
    lastObservation := initialObservation }

/-- The three outcomes of `llm_client.analyze_interruption`. -/
inductive InterruptClass where
  | NEW_TASK
  | MODIFY_OBJECTIVE
  | ADVICE
deriving DecidableEq

/-- The state transition of the `KeyboardInterrupt` handler in `Worker.run`
(worker.py lines 790-802) given the interrupt classification, the
classifier's `updated_text` and the raw user guidance. -/
def handle_interrupt (s : WorkerState) (intent : InterruptClass)
    (updatedText userGuidance : String) : WorkerState :=
  match intent with
  | .NEW_TASK =>
    reset_state { s with objective := updatedText }
      ("Task switched by user: " ++ userGuidance)
  | .MODIFY_OBJECTIVE =>
    { s with
      objective := updatedText,
      lastObservation := "USER INTERRUPTION: " ++ userGuidance ++ " (Objective Updated)" }
  | .ADVICE =>
    { s with lastObservation := "USER ADVICE: " ++ userGuidance }

/-- The milestone-list update of `Worker._analyze_milestones` (worker.py
lines 379-385) applied to the analyzer's `milestones_achieved` list.  The
model works on the string entries; non-string entries are discarded by the
`isinstance` guard in the source and are therefore not represented. -/
def analyze_milestones_update (completed : List String)
    (newMilestones : List String) : List String :=
  newMilestones.foldl
    (fun acc milestone =>
      if milestone ≠ "" && pyStrip milestone ≠ "" && !(acc.contains milestone)
      then acc ++ [pyStrip milestone] else acc)
    completed

/-! ## History buffer and tiered history formatter (worker.py) -/

/-- `deque(maxlen=50)` from `Worker.__init__` (worker.py line 49). -/
def histCapacity : Nat := 50

/-- `self.max_history_tokens = 25000` (worker.py line 57). -/
def max_history_tokens : Nat := 25000

/-- Appending one record to a `deque(maxlen=histCapacity)`: the oldest
entry is evicted when the capacity is exceeded. -/
def historyAppend (h : List HistoryStep) (r : HistoryStep) : List HistoryStep :=
  let h2 := h ++ [r]
  if h2.length > histCapacity then h2.drop (h2.length - histCapacity) else h2

/-- Whether a character ends a sentence (the `[.!?]` class of the regex in
`Worker._first_n_sentences`). -/
def sentencePunct (c : Char) : Bool := c = '.' || c = '!' || c = '?'

/-- Does the (reversed) accumulator end right after sentence punctuation? -/
def sentenceEnd (acc : List Char) : Bool :=
  match acc with
  | p :: _ => sentencePunct p
  | [] => false

mutual
/-- Splitting on the regex `(?<=[.!?])\s+`: a maximal whitespace run that
immediately follows sentence punctuation separates two sentences.  `acc`
holds the current sentence reversed. -/
def splitSentencesAux : List Char → List Char → List (List Char)
  | [], acc => [acc.reverse]
  | c :: rest, acc =>
    if c.isWhitespace && sentenceEnd acc then
      acc.reverse :: splitAfterSep rest
    else
      splitSentencesAux rest (c :: acc)

/-- Consume the rest of the whitespace run of a separator match. -/
def splitAfterSep : List Char → List (List Char)
  | [] => [[]]
  | c :: rest =>
    if c.isWhitespace then splitAfterSep rest
    else splitSentencesAux rest [c]
end

/-- `Worker._first_n_sentences` (worker.py lines 219-228). -/
def first_n_sentences (text : String) (n : Nat) : String :=
  if text = "" then ""
  else
    let sentences :=
      (splitSentencesAux (pyStrip text).toList []).map (fun cs => String.mk cs)
    let result := joinWith " " (sentences.take n)
    if sentences.length > n then result ++ " [...]" else result

/-- The MINIMAL-tier pass/fail tag of `Worker._format_history`
(worker.py line 204). -/
def minimalStatus (summary : String) : String :=
  if ["FAILED", "ERROR", "STUCK"].any (fun kw => containsSubstr summary.toUpper kw)
  then "FAIL" else "OK"

/-- The entry rendered for the step at distance `idxFromEnd` from the most
recent record (worker.py lines 195-205). -/
def historyEntry (idxFromEnd : Nat) (step : HistoryStep) : String :=
  if idxFromEnd < 3 then
    "STEP " ++ toString step.iteration ++ " [FULL]:\nAction: " ++ step.action
      ++ "\nResult Summary: " ++ step.summary ++ "\n"
  else if idxFromEnd < 10 then
    "STEP " ++ toString step.iteration ++ " [BRIEF]:\nAction: " ++ step.action
      ++ "\nResult: " ++ first_n_sentences step.summary 2 ++ "\n"
  else
    "STEP " ++ toString step.iteration ++ ": " ++ step.action ++ " ["
      ++ minimalStatus step.summary ++ "]\n"

/-- The truncation marker appended when the budget is exhausted
(worker.py line 210). -/
def omissionMarker (remaining : Nat) : String :=
  "... [" ++ toString remaining ++ " older steps omitted due to context budget] ..."

/-- The newest-first fill loop of `Worker._format_history` (worker.py
lines 190-213).  `items` is the remaining newest-first list, `idxFromEnd`
the enumeration index, `used` the characters consumed so far and `count`
the number of entries already collected. -/
def formatLoop (total budget : Nat) :
    List HistoryStep → Nat → Nat → Nat → List String
  | [], _, _, _ => []
  | step :: rest, idxFromEnd, used, count =>
    let entry := historyEntry idxFromEnd step
    if used + entry.length > budget then
      [omissionMarker (total - count)]
    else
      entry :: formatLoop total budget rest (idxFromEnd + 1) (used + entry.length) (count + 1)

/-- `Worker._format_history` (worker.py lines 170-217), with the
`self.max_history_tokens` attribute passed explicitly. -/
def format_history (maxTokens : Nat) (recentHistory : List HistoryStep) : String :=
  if recentHistory.isEmpty then "No recent history."
  else
    let total := recentHistory.length
    let budget := maxTokens * 4
    let formatted := formatLoop total budget recentHistory.reverse 0 0 0
    joinWith "\n" formatted.reverse

/-! ## The Execute phase: action chain, summarize, retry loop
(worker.py lines 568-755) -/

/-- One parsed action `{tool_name, parameters, allow_failure}`; `toolName`
is `none` when the key is absent and the parameters stay abstract (they
are only forwarded to the tool). -/
structure ActionSpec where
  toolName : Option String
  allowFailure : Bool
deriving DecidableEq

/-- The environment of one chain execution: the registered tool names, the
terminal tool names, the result string produced by executing the action at
a given chain index (tool exceptions are already stringified by the
source's `except` clauses), and the reply to a `get_user_input` request. -/
structure ChainEnv where
  tools : List String
  terminalTools : List String
  results : Nat → String
  userInput : String

/-- How one pass over the action chain ended. -/
inductive ChainExit where
  | ok
  | terminalReturn (result : String)
  | earlyExit
  | errorStop
deriving DecidableEq

/-- Outcome of one pass over the action chain: the indices at which a tool
was invoked (`actions_taken` positions), the tool names taken, the
`combined_summary_parts`, the `error_at_step` value (`-1` for none) and
the way the loop ended. -/
structure ChainResult where
  executed : List Nat
  actionsTaken : List String
  parts : List String
  errorAtStep : Int
  exit : ChainExit
deriving DecidableEq

/-- The recognized failure marker (worker.py line 690): the result contains
`COMMAND FAILED` or starts (after stripping) with `Error:`. -/
def isFailureResult (s : String) : Bool :=
  containsSubstr s "COMMAND FAILED" || pyStartsWith (pyStrip s) "Error:"

/-- The `for idx, action_data in enumerate(actions)` loop (worker.py lines
639-693), at absolute index `idx`.  A missing/empty or unknown tool name
records an error part and halts; a terminal tool returns the whole run; a
`get_user_input` action ends the chain early; any other action executes
and halts at this index when its result carries the failure marker and
`allow_failure` is not set. -/
def run_chain_aux (env : ChainEnv) : Nat → List ActionSpec → ChainResult
  | _, [] => ⟨[], [], [], -1, .ok⟩
  | idx, action :: rest =>
    let toolName := action.toolName.getD ""
    if toolName = "" then
      ⟨[], [], ["Action " ++ toString (idx + 1) ++ ": Missing tool_name in action data."],
        (idx : Int), .errorStop⟩
    else if !(env.tools.contains toolName) then
      ⟨[], [], ["Action " ++ toString (idx + 1) ++ ": Tool " ++ pyStrQuote ++ toolName
          ++ pyStrQuote ++ " not found. Available: " ++ pyListRepr env.tools],
        (idx : Int), .errorStop⟩
    else if env.terminalTools.contains toolName then
      ⟨[idx], [toolName], [], -1, .terminalReturn (env.results idx)⟩
    else if toolName = "get_user_input" then
      ⟨[idx], [toolName], ["User Input: " ++ env.userInput], -1, .earlyExit⟩
    else
      let resultStr := env.results idx
      let part := "Action " ++ toString (idx + 1) ++ " (" ++ toolName ++ "):\n" ++ resultStr
      if isFailureResult resultStr && !action.allowFailure then
        ⟨[idx], [toolName], [part], (idx : Int), .errorStop⟩
      else
        let sub := run_chain_aux env (idx + 1) rest
        ⟨idx :: sub.executed, toolName :: sub.actionsTaken, part :: sub.parts,
          sub.errorAtStep, sub.exit⟩

/-- The cap on the chain length (worker.py lines 635-637): excess actions
are silently truncated to 15. -/
def truncate_actions (actions : List ActionSpec) : List ActionSpec :=
  if actions.length > 15 then actions.take 15 else actions

/-- One execution attempt over a parsed chain. -/
def run_chain (env : ChainEnv) (actions : List ActionSpec) : ChainResult :=
  run_chain_aux env 0 (truncate_actions actions)

/-- Result of the per-attempt Summarize step. -/
structure SummarizeOutcome where
  attemptSummary : String
  usedSummarizer : Bool
deriving DecidableEq

/-- The Summarize step of one attempt (worker.py lines 695-704): a single
action whose combined raw output is under 200 characters is passed through
verbatim unless its tool is `run_command`; everything else goes through
the LLM summarizer. -/
def summarize_attempt (summarizer : String → String → String)
    (actions : List ActionSpec) (cr : ChainResult) : SummarizeOutcome :=
  if cr.parts.isEmpty then ⟨"No actions executed.", false⟩
  else
    let fullRawOutput := joinWith "\n\n" cr.parts
    if fullRawOutput.length < 200 && actions.length == 1
        && ((actions.head?.bind (·.toolName)) != some "run_command") then
      ⟨fullRawOutput, false⟩
    else
      ⟨summarizer ("Chain: " ++ joinWith ", " cr.actionsTaken) fullRawOutput, true⟩

/-- One executor attempt followed by the success path of the retry decision
(worker.py lines 629-711 and 754): when the attempt ends without an error
(or via a user-input early exit), `last_observation` becomes the attempt
summary.  Returns the new observation paired with whether the summarizer
was invoked; `none` when the run returned through a terminal tool or the
attempt failed (retry path). -/
def run_iteration_once (summarizer : String → String → String)
    (env : ChainEnv) (actions0 : List ActionSpec) : Option (String × Bool) :=
  let actions := truncate_actions actions0
  let cr := run_chain_aux env 0 actions
  match cr.exit with
  | .terminalReturn _ => none
  | _ =>
    let s := summarize_attempt summarizer actions cr
    if cr.errorAtStep == -1 || cr.exit == .earlyExit then
      some (s.attemptSummary, s.usedSummarizer)
    else none

/-- `max_exec_retries = 3` (worker.py line 568). -/
def maxExecRetries : Nat := 3

/-- What one executor attempt produced, abstracting the LLM call and the
chain run: a JSON parse failure, an empty action list, a chain that ended
without an error (`error_at_step == -1` or early exit), or a chain whose
first error was at index `i`. -/
inductive AttemptOutcome where
  | parseFailed
  | noActions
  | chainOk
  | failAt (i : Nat)
deriving DecidableEq

/-- How the retry loop ended. -/
inductive RetryExit where
  | completed
  | stuck (step : Nat)
  | exhausted (step : Nat)
  | ranOut
deriving DecidableEq

/-- The retry loop of the Execute phase (worker.py lines 575-752), driven
by the outcome of each attempt.  `lastFail` is `last_fail_step` (initially
`-1`), `stuck` is `stuck_count`, `attempt` the `exec_attempt` counter and
`fuel` the remaining iterations of `range(max_exec_retries + 1)`.  Returns
the number of executor attempts consumed and the way the loop ended. -/
def retryLoopAux (script : Nat → AttemptOutcome) :
    Int → Nat → Nat → Nat → Nat × RetryExit
  | _, _, attempt, 0 => (attempt, .ranOut)
  | lastFail, stuck, attempt, fuel + 1 =>
    match script attempt with
    | .parseFailed => retryLoopAux script lastFail stuck (attempt + 1) fuel
    | .noActions => retryLoopAux script lastFail stuck (attempt + 1) fuel
    | .chainOk => (attempt + 1, .completed)
    | .failAt i =>
      let stuckAfter := if (i : Int) ≤ lastFail then stuck + 1 else 0
      if stuckAfter ≥ 2 then (attempt + 1, .stuck i)
      else if attempt < maxExecRetries then
        retryLoopAux script (i : Int) stuckAfter (attempt + 1) fuel
      else (attempt + 1, .exhausted i)

/-- The whole `for exec_attempt in range(max_exec_retries + 1)` loop. -/
def execRetryLoop (script : Nat → AttemptOutcome) : Nat × RetryExit :=
  retryLoopAux script (-1) 0 0 (maxExecRetries + 1)

/-! ## The sandbox scheduler (aeon/tools/research.py) -/

/-- One hypothesis `{name, goal}` given to `conduct_research`. -/
structure ResearchHypothesis where
  name : String
  goal : String

/-- `num_threads = min(len(hypotheses), 10)` (research.py line 197). -/
def num_threads (hypotheses : List ResearchHypothesis) : Nat :=
  min hypotheses.length 10

/-- `available_mem = total_mem_gb * 0.8` (research.py line 196), with the
arithmetic carried out exactly over the rationals. -/
def available_mem (totalMemGb : ℚ) : ℚ := totalMemGb * (8 / 10)

/-- `mem_per_agent = available_mem / num_threads` (research.py line 198). -/
def mem_per_agent (totalMemGb : ℚ) (hypotheses : List ResearchHypothesis) : ℚ :=
  available_mem totalMemGb / (num_threads hypotheses : ℚ)

/-- The jobs submitted to the `ThreadPoolExecutor` (research.py lines
208-212): one `_run_researcher` job per hypothesis, each with the same
computed memory quota. -/
def submittedJobs (totalMemGb : ℚ) (hypotheses : List ResearchHypothesis) :
    List (String × ℚ) :=
  hypotheses.map (fun h => (h.name, mem_per_agent totalMemGb hypotheses))

/-- How `_setup_docker_lab` (research.py lines 66-97) ends: it returns the
container name and host path, or raises before the workspace copy exists
(the initial `rmtree`/`makedirs` fails), or raises after creating the
workspace copy (a copy error or a non-zero `docker run`, via
`check=True`). -/
inductive SetupOutcome where
  | ok (containerName hostPath : String)
  | raiseBeforeWorkspace
  | raiseAfterWorkspace (hostPath : String)
deriving DecidableEq

/-- How the embedded engine part of `_run_researcher` ends: the sub-worker
finishes and a status is derived from its history, or an exception
escapes. -/
inductive RunOutcome where
  | completes (status report : String)
  | raises (message : String)
deriving DecidableEq

/-- What `_run_researcher` leaves behind. -/
structure JobReturn where
  status : String
  killedContainers : List String
  removedWorkspaces : List String
  workspaceLeftOnDisk : Bool
deriving DecidableEq

/-- `_run_researcher` (research.py lines 99-187).  `container_info` starts
as the empty dict and is only assigned from a *successful*
`_setup_docker_lab`; the `except` clause turns any exception into an
`Error` result; the `finally` clause force-kills the container when
`container_info` has a `container_name` key and removes the workspace when
it has a `host_path` key whose directory exists. -/
def run_researcher (setup : SetupOutcome) (run : RunOutcome) : JobReturn :=
  let containerInfo : Option (String × String) :=
    match setup with
    | .ok n p => some (n, p)
    | _ => none
  let workspaceCreated : Bool :=
    match setup with
    | .ok _ _ => true
    | .raiseAfterWorkspace _ => true
    | .raiseBeforeWorkspace => false
  let status : String :=
    match setup, run with
    | .ok _ _, .completes st _ => st
    | _, _ => "Error"
  let kills : List String :=
    match containerInfo with
    | some (n, _) => [n]
    | none => []
  let rms : List String :=
    match containerInfo with
    | some (_, p) => if workspaceCreated then [p] else []
    | none => []
  ⟨status, kills, rms, workspaceCreated && rms.isEmpty⟩

/-! ## Concrete instances used in the claim analyses -/

/-- Two consecutive executor failures at chain index 2 then index 1,
followed by a clean attempt. -/
def stuckScript21 : Nat → AttemptOutcome := fun n =>
  match n with
  | 0 => .failAt 2
  | 1 => .failAt 1
  | _ => .chainOk

/-- Executor failures at chain index 2, then 1, then 1 again. -/
def stuckScript211 : Nat → AttemptOutcome := fun n =>
  match n with
  | 0 => .failAt 2
  | _ => .failAt 1

/-- A single successful `run_command` (`ls`-style) action chain. -/
def lsEnv : ChainEnv :=
  ⟨["run_command", "task_complete"], ["task_complete"],
    fun _ => "COMMAND SUCCESS\n\nOUTPUT:\nfile_a\nfile_b\n", ""⟩

def lsActions : List ActionSpec := [⟨some "run_command", false⟩]

/-- A summarizer stub returning a fixed condensation. -/
def fixedSummarizer : String → String → String := fun _ _ => "CONDENSED SUMMARY"

/-- A single successful non-`run_command` action chain with short output. -/
def shortEnv : ChainEnv :=
  ⟨["open_file", "task_complete"], ["task_complete"],
    fun _ => "Opened /tmp/a.txt", ""⟩

def shortActions : List ActionSpec := [⟨some "open_file", false⟩]

/-- A chain whose second action fails without `allow_failure`. -/
def failEnv : ChainEnv :=
  ⟨["write_file", "run_command"], [],
    fun i => if i == 1 then "COMMAND FAILED (Exit Code 1)\n\nOUTPUT:\nboom"
             else "COMMAND SUCCESS\n\nOUTPUT:\nok", ""⟩

def failActions : List ActionSpec :=
  [⟨some "write_file", false⟩, ⟨some "run_command", false⟩, ⟨some "run_command", false⟩]

/-- A mid-run worker state (iteration 5) about to receive an interrupt. -/
def interruptedState : WorkerState :=
  ⟨"p", [("/a", "x")], [⟨1, "a", "s"⟩], ["m"], "o", "old objective", 5⟩

/-- A summary sized so that its FULL-tier history entry is one character
under the 100000-character budget. -/
def bigSummary : String := String.mk (List.replicate 99957 'a')

def histOld : HistoryStep := ⟨1, "a", "s"⟩

def histNew : HistoryStep := ⟨2, "a", bigSummary⟩

/-- A two-record history whose rendering exceeds the character budget. -/
def overBudgetHistory : List HistoryStep := [histOld, histNew]

/-- Sum of the lengths of a list of strings. -/
def sumLen (l : List String) : Nat := (l.map String.length).sum

/-! ## Registry lemmas -/

theorem lookupModel_eq_none {reg : Registry} {m : ModelName} :
    lookupModel reg m = none ↔ m ∉ reg.map Prod.fst := by
  induction reg with
  | nil => simp [lookupModel]
  | cons e rest ih =>
    obtain ⟨k, v⟩ := e
    by_cases h : k = m
    · subst h; simp [lookupModel]
    · simp [lookupModel, h, ih, Ne.symm h]

theorem lookupModel_mem {reg : Registry} {m : ModelName} {v : List Pid}
    (h : lookupModel reg m = some v) : (m, v) ∈ reg := by
  induction reg with
  | nil => simp [lookupModel] at h
  | cons e rest ih =>
    obtain ⟨k, w⟩ := e
    by_cases hk : k = m
    · subst hk
      simp [lookupModel] at h
      simp [h]
    · simp [lookupModel, hk] at h
      exact List.mem_cons_of_mem _ (ih h)

theorem lookupModel_append_right {reg : Registry} {m : ModelName} (v : List Pid)
    (h : lookupModel reg m = none) :
    lookupModel (reg ++ [(m, v)]) m = some v := by
  induction reg with
  | nil => simp [lookupModel]
  | cons e rest ih =>
    obtain ⟨k, w⟩ := e
    by_cases hk : k = m
    · subst hk; simp [lookupModel] at h
    · simp [lookupModel, hk] at h ⊢
      exact ih h

theorem lookupModel_setModel_self {reg : Registry} {m : ModelName} {v : List Pid} :
    lookupModel (setModel reg m v) m = some v := by
  induction reg with
  | nil => simp [setModel, lookupModel]
  | cons e rest ih =>
    obtain ⟨k, w⟩ := e
    by_cases hk : k = m
    · subst hk; simp [setModel, lookupModel]
    · simp [setModel, lookupModel, hk, ih]

theorem lookupModel_setModel_ne {reg : Registry} {k m : ModelName} {v : List Pid}
    (h : k ≠ m) : lookupModel (setModel reg m v) k = lookupModel reg k := by
  have hmk : ¬(m = k) := fun hh => h hh.symm
  induction reg with
  | nil => simp [setModel, lookupModel, hmk]
  | cons e rest ih =>
    obtain ⟨k0, w⟩ := e
    by_cases hk : k0 = m
    · subst hk
      have hkk : ¬(k0 = k) := fun hh => h hh.symm
      simp [setModel, lookupModel, hkk]
    · simp [setModel, lookupModel, hk, ih]

theorem setModel_map_fst_of_isSome {reg : Registry} {m : ModelName} {v : List Pid}
    (h : (lookupModel reg m).isSome) :
    (setModel reg m v).map Prod.fst = reg.map Prod.fst := by
  induction reg with
  | nil => simp [lookupModel] at h
  | cons e rest ih =>
    obtain ⟨k, w⟩ := e
    by_cases hk : k = m
    · subst hk; simp [setModel]
    · simp [lookupModel, hk] at h
      simp [setModel, hk, ih h]

theorem mem_setModel_of_nodup {reg : Registry} {m : ModelName} {v : List Pid}
    {e : ModelName × List Pid} (hk : (reg.map Prod.fst).Nodup)
    (h : e ∈ setModel reg m v) : e = (m, v) ∨ (e ∈ reg ∧ e.1 ≠ m) := by
  induction reg with
  | nil =>
    simp [setModel] at h
    exact Or.inl h
  | cons b rest ih =>
    obtain ⟨k, w⟩ := b
    simp at hk
    by_cases hkm : k = m
    · subst hkm
      simp [setModel] at h
      rcases h with h | h
      · exact Or.inl h
      · refine Or.inr ⟨List.mem_cons_of_mem _ h, ?_⟩
        intro hem
        have h' : (e.1, e.2) ∈ rest := by simpa using h
        rw [hem] at h'
        exact hk.1 e.2 h'
    · simp [setModel, hkm] at h
      rcases h with h | h
      · subst h
        exact Or.inr ⟨List.mem_cons_self _ _, hkm⟩
      · rcases ih hk.2 h with h1 | h1
        · exact Or.inl h1
        · exact Or.inr ⟨List.mem_cons_of_mem _ h1.1, h1.2⟩

theorem delModel_sublist (reg : Registry) (m : ModelName) :
    List.Sublist (delModel reg m) reg := by
  induction reg with
  | nil => simp [delModel]
  | cons e rest ih =>
    obtain ⟨k, w⟩ := e
    by_cases hk : k = m
    · simp [delModel, hk]
    · simpa [delModel, hk] using List.Sublist.cons₂ (k, w) ih

theorem lookupModel_delModel_self {reg : Registry} {m : ModelName}
    (hk : (reg.map Prod.fst).Nodup) :
    lookupModel (delModel reg m) m = none := by
  induction reg with
  | nil => simp [delModel, lookupModel]
  | cons b rest ih =>
    obtain ⟨k, w⟩ := b
    simp at hk
    by_cases hkm : k = m
    · subst hkm
      simp [delModel]
      exact lookupModel_eq_none.mpr (by
        intro hm
        obtain ⟨e, he, hfst⟩ := List.mem_map.mp hm
        have h' : (e.1, e.2) ∈ rest := by simpa using he
        rw [hfst] at h'
        exact hk.1 e.2 h')
    · simp [delModel, lookupModel, hkm, ih hk.2]

theorem lookupModel_delModel_ne {reg : Registry} {k m : ModelName}
    (h : k ≠ m) : lookupModel (delModel reg m) k = lookupModel reg k := by
  induction reg with
  | nil => simp [delModel]
  | cons e rest ih =>
    obtain ⟨k0, w⟩ := e
    by_cases hk : k0 = m
    · subst hk
      have hkk : ¬(k0 = k) := fun hh => h hh.symm
      simp [delModel, lookupModel, hkk]
    · simp [delModel, lookupModel, hk, ih]

theorem cleanup_fst_sublist (alive : Pid → Bool) (reg : Registry) :
    List.Sublist ((cleanup_stale_pids alive reg).1.map Prod.fst) (reg.map Prod.fst) := by
  induction reg with
  | nil => simp [cleanup_stale_pids]
  | cons e rest ih =>
    obtain ⟨m, pids⟩ := e
    by_cases hb : (pids.filter alive).isEmpty
    · simpa [cleanup_stale_pids, hb] using List.Sublist.trans ih (List.sublist_cons_self _ _)
    · simpa [cleanup_stale_pids, hb] using List.Sublist.cons₂ m ih

theorem cleanup_orphaned_sublist (alive : Pid → Bool) (reg : Registry) :
    List.Sublist (cleanup_stale_pids alive reg).2 (reg.map Prod.fst) := by
  induction reg with
  | nil => simp [cleanup_stale_pids]
  | cons e rest ih =>
    obtain ⟨m, pids⟩ := e
    by_cases hb : (pids.filter alive).isEmpty
    · simpa [cleanup_stale_pids, hb] using List.Sublist.cons₂ m ih
    · simpa [cleanup_stale_pids, hb] using List.Sublist.trans ih (List.sublist_cons_self _ _)

theorem cleanup_mem {alive : Pid → Bool} {reg : Registry}
    {e : ModelName × List Pid} (h : e ∈ (cleanup_stale_pids alive reg).1) :
    ∃ pids, (e.1, pids) ∈ reg ∧ e.2 = pids.filter alive ∧ e.2 ≠ [] := by
  induction reg with
  | nil => simp [cleanup_stale_pids] at h
  | cons b rest ih =>
    obtain ⟨m, pids⟩ := b
    by_cases hb : (pids.filter alive).isEmpty
    · simp [cleanup_stale_pids, hb] at h
      obtain ⟨ps, h1, h2, h3⟩ := ih h
      exact ⟨ps, List.mem_cons_of_mem _ h1, h2, h3⟩
    · simp [cleanup_stale_pids, hb] at h
      rcases h with h | h
      · subst h
        refine ⟨pids, List.mem_cons_self _ _, rfl, ?_⟩
        simpa [List.isEmpty_iff] using hb
      · obtain ⟨ps, h1, h2, h3⟩ := ih h
        exact ⟨ps, List.mem_cons_of_mem _ h1, h2, h3⟩

theorem lookupModel_eq_none_of_not_mem {reg : Registry} {m : ModelName}
    (h : m ∉ reg.map Prod.fst) : lookupModel reg m = none :=
  lookupModel_eq_none.mpr h

theorem cleanup_lookup {alive : Pid → Bool} {reg : Registry}
    (hk : (reg.map Prod.fst).Nodup) (m : ModelName) :
    lookupModel (cleanup_stale_pids alive reg).1 m =
      match lookupModel reg m with
      | none => none
      | some pids =>
        if (pids.filter alive).isEmpty then none else some (pids.filter alive) := by
  induction reg with
  | nil => simp [cleanup_stale_pids, lookupModel]
  | cons b rest ih =>
    obtain ⟨k, pids⟩ := b
    simp at hk
    by_cases hkm : k = m
    · subst hkm
      have hnone : lookupModel (cleanup_stale_pids alive rest).1 k = none := by
        apply lookupModel_eq_none_of_not_mem
        intro hmem
        have := (cleanup_fst_sublist alive rest).subset hmem
        obtain ⟨e, he, hfst⟩ := List.mem_map.mp this
        have h' : (e.1, e.2) ∈ rest := by simpa using he
        rw [hfst] at h'
        exact hk.1 e.2 h'
      by_cases hb : (pids.filter alive).isEmpty
      · simp [cleanup_stale_pids, hb, lookupModel, hnone]
      · simp [cleanup_stale_pids, hb, lookupModel]
    · by_cases hb : (pids.filter alive).isEmpty
      · simp [cleanup_stale_pids, hb, lookupModel, hkm, ih hk.2]
      · simp [cleanup_stale_pids, hb, lookupModel, hkm, ih hk.2]

theorem cleanup_orphaned_iff {alive : Pid → Bool} {reg : Registry}
    (hk : (reg.map Prod.fst).Nodup) (m : ModelName) :
    m ∈ (cleanup_stale_pids alive reg).2 ↔
      ∃ pids, lookupModel reg m = some pids ∧ pids.filter alive = [] := by
  induction reg with
  | nil => simp [cleanup_stale_pids, lookupModel]
  | cons b rest ih =>
    obtain ⟨k, pids⟩ := b
    simp at hk
    by_cases hkm : k = m
    · subst hkm
      have hnone : k ∉ (cleanup_stale_pids alive rest).2 := by
        intro hmem
        have := (cleanup_orphaned_sublist alive rest).subset hmem
        obtain ⟨e, he, hfst⟩ := List.mem_map.mp this
        have h' : (e.1, e.2) ∈ rest := by simpa using he
        rw [hfst] at h'
        exact hk.1 e.2 h'
      by_cases hb : (pids.filter alive).isEmpty
      · simp [cleanup_stale_pids, hb, lookupModel]
        simpa [List.isEmpty_iff] using hb
      · simp [cleanup_stale_pids, hb, lookupModel, hnone]
        simpa [List.isEmpty_iff] using hb
    · by_cases hb : (pids.filter alive).isEmpty
      · simp [cleanup_stale_pids, hb, lookupModel, hkm, ih hk.2, Ne.symm hkm]
      · simp [cleanup_stale_pids, hb, lookupModel, hkm, ih hk.2, Ne.symm hkm]

theorem contains_eq_true_iff {α : Type} [BEq α] [LawfulBEq α]
    {l : List α} {a : α} : l.contains a = true ↔ a ∈ l := by
  simp [List.contains]

theorem contains_eq_false_iff {α : Type} [BEq α] [LawfulBEq α]
    {l : List α} {a : α} : l.contains a = false ↔ a ∉ l := by
  simp [List.contains]

theorem regWF_cleanup {alive : Pid → Bool} {reg : Registry} (h : RegWF reg) :
    RegWF (cleanup_stale_pids alive reg).1 := by
  obtain ⟨hkeys, hnodup, _⟩ := h
  refine ⟨(cleanup_fst_sublist alive reg).nodup hkeys, ?_, ?_⟩
  · intro e he
    obtain ⟨pids, hmem, hfil, _⟩ := cleanup_mem he
    rw [hfil]
    exact (hnodup _ hmem).filter alive
  · intro e he
    obtain ⟨pids, _, _, hne2⟩ := cleanup_mem he
    exact hne2

theorem registerOne_of_some {reg : Registry} {m : ModelName} {pid : Pid}
    {pids : List Pid} (hl : lookupModel reg m = some pids) :
    registerOne pid reg m =
      if pids.contains pid then reg else setModel reg m (pids ++ [pid]) := by
  unfold registerOne
  simp [hl]

theorem registerOne_of_none {reg : Registry} {m : ModelName} {pid : Pid}
    (hl : lookupModel reg m = none) :
    registerOne pid reg m = setModel (reg ++ [(m, [])]) m [pid] := by
  unfold registerOne
  simp [hl, lookupModel_append_right [] hl, List.contains]

theorem regWF_registerOne {reg : Registry} {pid : Pid} {m : ModelName}
    (h : RegWF reg) : RegWF (registerOne pid reg m) := by
  obtain ⟨hkeys, hnodup, hne⟩ := h
  cases hl : lookupModel reg m with
  | some pids =>
    rw [registerOne_of_some hl]
    by_cases hc : pids.contains pid = true
    · rw [if_pos hc]
      exact ⟨hkeys, hnodup, hne⟩
    · have hnmem : pid ∉ pids := fun hmem => hc (contains_eq_true_iff.mpr hmem)
      have hs : (lookupModel reg m).isSome := by simp [hl]
      rw [if_neg hc]
      refine ⟨?_, ?_, ?_⟩
      · rw [setModel_map_fst_of_isSome hs]
        exact hkeys
      · intro e he
        rcases mem_setModel_of_nodup hkeys he with he1 | he1
        · subst he1
          simpa [List.nodup_append] using ⟨hnodup _ (lookupModel_mem hl), hnmem⟩
        · exact hnodup _ he1.1
      · intro e he
        rcases mem_setModel_of_nodup hkeys he with he1 | he1
        · subst he1; simp
        · exact hne _ he1.1
  | none =>
    rw [registerOne_of_none hl]
    have hnot : m ∉ reg.map Prod.fst := lookupModel_eq_none.mp hl
    have hlook1 : lookupModel (reg ++ [(m, [])]) m = some [] :=
      lookupModel_append_right [] hl
    have hkeys1 : ((reg ++ [(m, [])]).map Prod.fst).Nodup := by
      simpa [List.nodup_append, hkeys] using hnot
    refine ⟨?_, ?_, ?_⟩
    · rw [setModel_map_fst_of_isSome (by simp [hlook1])]
      exact hkeys1
    · intro e he
      rcases mem_setModel_of_nodup hkeys1 he with he1 | he1
      · subst he1; simp
      · rcases List.mem_append.mp he1.1 with he2 | he2
        · exact hnodup _ he2
        · simp at he2
          exact absurd (congrArg Prod.fst he2) (by simpa using he1.2)
    · intro e he
      rcases mem_setModel_of_nodup hkeys1 he with he1 | he1
      · subst he1; simp
      · rcases List.mem_append.mp he1.1 with he2 | he2
        · exact hne _ he2
        · simp at he2
          exact absurd (congrArg Prod.fst he2) (by simpa using he1.2)

theorem regWF_registerFold {pid : Pid} :
    ∀ (models : List ModelName) (reg : Registry), RegWF reg →
    RegWF (models.foldl (registerOne pid) reg)
  | [], _, h => h
  | _ :: ms, reg, h => regWF_registerFold ms _ (regWF_registerOne h)

theorem regWF_unregisterOne {st : Registry × List ModelName} {pid : Pid}
    {m : ModelName} (h : RegWF st.1) : RegWF (unregisterOne pid st m).1 := by
  obtain ⟨hkeys, hnodup, hne⟩ := h
  unfold unregisterOne
  cases hl : lookupModel st.1 m with
  | none => exact ⟨hkeys, hnodup, hne⟩
  | some pids =>
    by_cases hc : pids.contains pid
    · simp only [hc, if_true]
      by_cases hb : (pids.erase pid).isEmpty
      · simp only [hb, if_true]
        refine ⟨((delModel_sublist _ _).map Prod.fst).nodup hkeys, ?_, ?_⟩
        · intro e he
          exact hnodup _ ((delModel_sublist _ _).subset he)
        · intro e he
          exact hne _ ((delModel_sublist _ _).subset he)
      · simp only [hb, if_false, Bool.false_eq_true]
        have hs : (lookupModel st.1 m).isSome := by simp [hl]
        refine ⟨?_, ?_, ?_⟩
        · rw [setModel_map_fst_of_isSome hs]; exact hkeys
        · intro e he
          rcases mem_setModel_of_nodup hkeys he with he1 | he1
          · subst he1
            exact (hnodup _ (lookupModel_mem hl)).erase pid
          · exact hnodup _ he1.1
        · intro e he
          rcases mem_setModel_of_nodup hkeys he with he1 | he1
          · subst he1
            simpa [List.isEmpty_iff] using hb
          · exact hne _ he1.1
    · simp only [hc, if_false, Bool.false_eq_true]
      exact ⟨hkeys, hnodup, hne⟩

theorem regWF_unregisterFold {pid : Pid} :
    ∀ (models : List ModelName) (st : Registry × List ModelName), RegWF st.1 →
    RegWF ((models.foldl (unregisterOne pid) st)).1
  | [], _, h => h
  | _ :: ms, st, h => regWF_unregisterFold ms _ (regWF_unregisterOne h)

theorem regWF_applyOp {reg : Registry} (h : RegWF reg) (op : RegistryOp) :
    RegWF (applyOp reg op) := by
  cases op with
  | registerCall alive pid models =>
    unfold applyOp register_models_for_agent
    by_cases hm : models.isEmpty
    · simpa [hm] using h
    · simp only [hm, if_false, Bool.false_eq_true]
      exact regWF_registerFold models _ (regWF_cleanup h)
  | unregisterCall alive pid models =>
    unfold applyOp unregister_models_for_agent
    by_cases hm : models.isEmpty
    · simpa [hm] using h
    · simp only [hm, if_false, Bool.false_eq_true]
      exact regWF_unregisterFold models _ (regWF_cleanup h)

theorem regWF_applyOps : ∀ (ops : List RegistryOp) (reg : Registry),
    RegWF reg → RegWF (applyOps reg ops)
  | [], _, h => h
  | op :: ops, reg, h => regWF_applyOps ops _ (regWF_applyOp h op)

theorem regWF_nil : RegWF ([] : Registry) := by
  refine ⟨List.nodup_nil, ?_, ?_⟩ <;> intro e he <;> simp at he

theorem unregisterOne_of_none {st : Registry × List ModelName} {pid : Pid}
    {m : ModelName} (hl : lookupModel st.1 m = none) :
    unregisterOne pid st m = st := by
  unfold unregisterOne
  simp [hl]

theorem unregisterOne_of_not_mem {st : Registry × List ModelName} {pid : Pid}
    {m : ModelName} {pids : List Pid} (hl : lookupModel st.1 m = some pids)
    (hc : ¬(pids.contains pid = true)) :
    unregisterOne pid st m = st := by
  unfold unregisterOne
  simp only [hl]
  rw [if_neg hc]

theorem unregisterOne_of_last {st : Registry × List ModelName} {pid : Pid}
    {m : ModelName} {pids : List Pid} (hl : lookupModel st.1 m = some pids)
    (hc : pids.contains pid = true) (hb : (pids.erase pid).isEmpty = true) :
    unregisterOne pid st m =
      (delModel st.1 m, if st.2.contains m then st.2 else st.2 ++ [m]) := by
  unfold unregisterOne
  simp only [hl]
  rw [if_pos hc, if_pos hb]

theorem unregisterOne_of_remaining {st : Registry × List ModelName} {pid : Pid}
    {m : ModelName} {pids : List Pid} (hl : lookupModel st.1 m = some pids)
    (hc : pids.contains pid = true) (hb : ¬((pids.erase pid).isEmpty = true)) :
    unregisterOne pid st m = (setModel st.1 m (pids.erase pid), st.2) := by
  unfold unregisterOne
  simp only [hl]
  rw [if_pos hc, if_neg hb]

/-- Invariant threaded through the `for model in models` loop of
`unregister_models_for_agent`: the working registry is well-formed, its
keys all existed in the pre-call registry `reg0`, and `to_unload` holds
exactly (and without duplicates) the models that had an entry in `reg0`
and have none in the working registry. -/
def UnregInv (reg0 : Registry) (st : Registry × List ModelName) : Prop :=
  RegWF st.1
  ∧ (∀ m, (lookupModel st.1 m).isSome → (lookupModel reg0 m).isSome)
  ∧ (∀ m, m ∈ st.2 ↔ ((lookupModel reg0 m).isSome ∧ lookupModel st.1 m = none))
  ∧ st.2.Nodup

theorem unregInv_init {alive : Pid → Bool} {reg0 : Registry} (h : RegWF reg0) :
    UnregInv reg0 (cleanup_stale_pids alive reg0) := by
  refine ⟨regWF_cleanup h, ?_, ?_, (cleanup_orphaned_sublist alive reg0).nodup h.1⟩
  · intro m hs
    rw [cleanup_lookup h.1 m] at hs
    cases hlook : lookupModel reg0 m with
    | none => simp [hlook] at hs
    | some pids => simp [hlook]
  · intro m
    rw [cleanup_orphaned_iff h.1 m, cleanup_lookup h.1 m]
    constructor
    · rintro ⟨pids, hlook, hfil⟩
      refine ⟨by simp [hlook], ?_⟩
      simp [hlook, hfil]
    · rintro ⟨hs, hnone⟩
      obtain ⟨pids, hlook⟩ := Option.isSome_iff_exists.mp hs
      refine ⟨pids, hlook, ?_⟩
      rw [hlook] at hnone
      by_cases hb : (pids.filter alive).isEmpty
      · simpa [List.isEmpty_iff] using hb
      · simp [hb] at hnone

theorem unregInv_step {reg0 : Registry} {st : Registry × List ModelName}
    {pid : Pid} {m : ModelName} (h : UnregInv reg0 st) :
    UnregInv reg0 (unregisterOne pid st m) := by
  obtain ⟨hwf, hsub, hunld, hnodup⟩ := h
  have hwfAfter : RegWF (unregisterOne pid st m).1 := regWF_unregisterOne hwf
  cases hl : lookupModel st.1 m with
  | none => rw [unregisterOne_of_none hl]; exact ⟨hwf, hsub, hunld, hnodup⟩
  | some pids =>
    by_cases hc : pids.contains pid = true
    · have hmun : m ∉ st.2 := by
        intro hmem
        have := ((hunld m).mp hmem).2
        rw [hl] at this
        exact Option.some_ne_none _ this
      by_cases hb : (pids.erase pid).isEmpty = true
      · have hcu : ¬(st.2.contains m = true) :=
          fun hcc => hmun (contains_eq_true_iff.mp hcc)
        have heq : unregisterOne pid st m = (delModel st.1 m, st.2 ++ [m]) := by
          rw [unregisterOne_of_last hl hc hb, if_neg hcu]
        rw [heq] at hwfAfter ⊢
        have hr0 : (lookupModel reg0 m).isSome := hsub m (by simp [hl])
        have hdelself : lookupModel (delModel st.1 m) m = none :=
          lookupModel_delModel_self hwf.1
        refine ⟨hwfAfter, ?_, ?_, ?_⟩
        · intro k hs
          by_cases hkm : k = m
          · subst hkm
            rw [hdelself] at hs
            simp at hs
          · rw [lookupModel_delModel_ne hkm] at hs
            exact hsub k hs
        · intro k
          by_cases hkm : k = m
          · subst hkm
            simp [hdelself, hr0]
          · simp only [List.mem_append, List.mem_singleton, hkm, or_false,
              lookupModel_delModel_ne hkm]
            exact hunld k
        · simpa [List.nodup_append] using ⟨hnodup, hmun⟩
      · have heq : unregisterOne pid st m = (setModel st.1 m (pids.erase pid), st.2) :=
          unregisterOne_of_remaining hl hc hb
        rw [heq] at hwfAfter ⊢
        refine ⟨hwfAfter, ?_, ?_, hnodup⟩
        · intro k hs
          by_cases hkm : k = m
          · subst hkm
            exact hsub k (by simp [hl])
          · rw [lookupModel_setModel_ne hkm] at hs
            exact hsub k hs
        · intro k
          by_cases hkm : k = m
          · subst hkm
            simp only [lookupModel_setModel_self]
            constructor
            · intro hmem
              exact absurd hmem hmun
            · rintro ⟨-, hnone⟩
              exact absurd hnone (Option.some_ne_none _)
          · rw [lookupModel_setModel_ne hkm]
            exact hunld k
    · rw [unregisterOne_of_not_mem hl hc]
      exact ⟨hwf, hsub, hunld, hnodup⟩

theorem unregInv_fold {reg0 : Registry} {pid : Pid} :
    ∀ (models : List ModelName) (st : Registry × List ModelName),
    UnregInv reg0 st → UnregInv reg0 (models.foldl (unregisterOne pid) st)
  | [], _, h => h
  | _ :: ms, st, h => unregInv_fold ms _ (unregInv_step h)

theorem register_models_eq {alive : Pid → Bool} {pid : Pid}
    {models : List ModelName} {reg : Registry} (hm : ¬(models.isEmpty = true)) :
    register_models_for_agent alive pid models reg =
      (models.foldl (registerOne pid) (cleanup_stale_pids alive reg).1,
        (cleanup_stale_pids alive reg).2) := by
  unfold register_models_for_agent
  rw [if_neg hm]

theorem unregister_models_eq {alive : Pid → Bool} {pid : Pid}
    {models : List ModelName} {reg : Registry} (hm : ¬(models.isEmpty = true)) :
    unregister_models_for_agent alive pid models reg =
      models.foldl (unregisterOne pid) (cleanup_stale_pids alive reg) := by
  unfold unregister_models_for_agent
  rw [if_neg hm]

/-- C1 (amended): starting from the empty registry file, every reachable
registry is well-formed (unique keys, duplicate-free and non-empty owner
lists, so an entry is removed exactly when its owner set empties).  For a
non-empty `models` argument, a `register_models_for_agent` call unloads a
model exactly once and precisely when every recorded owner of that model
is dead, and an `unregister_models_for_agent` call unloads a model exactly
once and precisely when the model had an entry before the call and has
none after it (its owner set was emptied by dead-PID pruning or by
removing the caller's PID).  The original claim's "never while any live
registered owner remains" holds for unregister calls (the entry is gone
afterwards) but not for register calls that re-register an orphaned model
— see the counterexample. -/
theorem claim_C1_amended :
    (∀ (alive : Pid → Bool) (pid : Pid) (models : List ModelName) (reg : Registry),
      RegWF reg → ¬(models.isEmpty = true) →
      ((∀ m, m ∈ (register_models_for_agent alive pid models reg).2 ↔
          ∃ pids, lookupModel reg m = some pids ∧ pids.filter alive = [])
        ∧ (register_models_for_agent alive pid models reg).2.Nodup
        ∧ ∀ e ∈ (register_models_for_agent alive pid models reg).1, e.2 ≠ []))
    ∧ (∀ (alive : Pid → Bool) (pid : Pid) (models : List ModelName) (reg : Registry),
      RegWF reg → ¬(models.isEmpty = true) →
      ((∀ m, m ∈ (unregister_models_for_agent alive pid models reg).2 ↔
          ((lookupModel reg m).isSome ∧
            lookupModel (unregister_models_for_agent alive pid models reg).1 m = none))
        ∧ (unregister_models_for_agent alive pid models reg).2.Nodup
        ∧ ∀ e ∈ (unregister_models_for_agent alive pid models reg).1, e.2 ≠ []))
    ∧ (∀ ops : List RegistryOp, RegWF (applyOps [] ops)) := by
  refine ⟨?_, ?_, fun ops => regWF_applyOps ops [] regWF_nil⟩
  · intro alive pid models reg hwf hm
    rw [register_models_eq hm]
    refine ⟨fun m => cleanup_orphaned_iff hwf.1 m, ?_, ?_⟩
    · exact (cleanup_orphaned_sublist alive reg).nodup hwf.1
    · intro e he
      exact (regWF_registerFold models _ (regWF_cleanup hwf)).2.2 e he
  · intro alive pid models reg hwf hm
    rw [unregister_models_eq hm]
    have hinv := @unregInv_fold reg pid models (cleanup_stale_pids alive reg)
      (@unregInv_init alive reg hwf)
    exact ⟨hinv.2.2.1, hinv.2.2.2, hinv.1.2.2⟩

/-- C1 (counterexample): registry `{"m": [1]}` with PID 1 dead and PID 2
alive.  `register_models_for_agent` called by PID 2 for model `"m"`
unloads `"m"` even though, when the call returns (and before the unload
request is issued), PID 2 is a live registered owner of `"m"`; the owner
set is also non-empty both before and after the mutation, refuting the
"torn down iff the owner set transitions from non-empty to empty, never
while any live registered owner remains" reading of the claim. -/
theorem claim_C1_counterexample :
    (register_models_for_agent (fun p => p == 2) 2 ["m"] [("m", [1])]).2 = ["m"]
    ∧ lookupModel (register_models_for_agent (fun p => p == 2) 2 ["m"] [("m", [1])]).1 "m"
        = some [2]
    ∧ (fun p : Pid => p == 2) 2 = true := by
  decide

/-- C1 (witness): the amended theorem applied to the one-owner registry
`{"m": [7]}` and an unregister call by PID 7. -/
theorem claim_C1_witness :
    "m" ∈ (unregister_models_for_agent (fun _ => true) 7 ["m"] [("m", [7])]).2 :=
  ((claim_C1_amended.2.1 (fun _ => true) 7 ["m"] [("m", [7])]
      ⟨by decide, by decide, by decide⟩ (by decide)).1 "m").mpr (by decide)

/-- C10: starting from the empty registry file, no reachable registry
records a duplicate owner PID for any model; `registerOne` (the body of
the registration loop) is idempotent for a PID already recorded; and after
an `unregisterOne` step for model `m` by `pid`, the owner list of `m` (if
the entry still exists) no longer contains `pid` at all. -/
theorem claim_C10_no_duplicate_pids :
    (∀ (ops : List RegistryOp) (m : ModelName) (pids : List Pid),
      lookupModel (applyOps [] ops) m = some pids → pids.Nodup)
    ∧ (∀ (reg : Registry) (m : ModelName) (pid : Pid) (pids : List Pid),
      lookupModel reg m = some pids → pid ∈ pids → registerOne pid reg m = reg)
    ∧ (∀ (reg : Registry) (unld : List ModelName) (m : ModelName) (pid : Pid)
        (pids : List Pid), RegWF reg → lookupModel reg m = some pids → pid ∈ pids →
      ∀ pidsAfter, lookupModel (unregisterOne pid (reg, unld) m).1 m = some pidsAfter →
        pid ∉ pidsAfter) := by
  refine ⟨?_, ?_, ?_⟩
  · intro ops m pids h
    exact (regWF_applyOps ops [] regWF_nil).2.1 (m, pids) (lookupModel_mem h)
  · intro reg m pid pids hl hmem
    rw [registerOne_of_some hl, if_pos (contains_eq_true_iff.mpr hmem)]
  · intro reg unld m pid pids hwf hl hmem pidsAfter hafter
    have hc : pids.contains pid = true := contains_eq_true_iff.mpr hmem
    have hpnodup : pids.Nodup := hwf.2.1 (m, pids) (lookupModel_mem hl)
    by_cases hb : (pids.erase pid).isEmpty = true
    · rw [@unregisterOne_of_last (reg, unld) pid m pids hl hc hb] at hafter
      rw [lookupModel_delModel_self hwf.1] at hafter
      exact absurd hafter (by simp)
    · rw [@unregisterOne_of_remaining (reg, unld) pid m pids hl hc hb] at hafter
      rw [lookupModel_setModel_self] at hafter
      have : pidsAfter = pids.erase pid := by
        simpa using hafter.symm
      rw [this]
      exact hpnodup.not_mem_erase

/-- C10 (witness): re-registering PID 4 for model `"m"` when it is already
the recorded owner leaves the registry unchanged. -/
theorem claim_C10_witness :
    registerOne 4 [("m", [4])] "m" = [("m", [4])] :=
  claim_C10_no_duplicate_pids.2.1 [("m", [4])] "m" 4 [4] (by decide) (by decide)

/-! ## Claims C2, C3, C4, C8, C9 -/

/-- C2: evaluation at the failing input.  When `_setup_docker_lab` raises
after the workspace copy was created (e.g. `docker run` exits non-zero
under `check=True`), `container_info` is still the empty dict, so the
`finally` clause of `_run_researcher` removes nothing: the job returns an
`Error` result with its copied workspace left on disk.  On the other exit
paths — here an embedded-engine exception after successful provisioning —
the container is killed and the workspace removed exactly once. -/
theorem claim_C2_divergence :
    (run_researcher (.raiseAfterWorkspace "/root/.aeon_labs/lab1")
        (.completes "Complete" "r")).removedWorkspaces = []
    ∧ (run_researcher (.raiseAfterWorkspace "/root/.aeon_labs/lab1")
        (.completes "Complete" "r")).workspaceLeftOnDisk = true
    ∧ (run_researcher (.ok "aeon_lab_1" "/root/.aeon_labs/lab1")
        (.raises "engine crashed")).killedContainers = ["aeon_lab_1"]
    ∧ (run_researcher (.ok "aeon_lab_1" "/root/.aeon_labs/lab1")
        (.raises "engine crashed")).removedWorkspaces = ["/root/.aeon_labs/lab1"]
    ∧ (run_researcher (.ok "aeon_lab_1" "/root/.aeon_labs/lab1")
        (.raises "engine crashed")).status = "Error" := by
  decide

theorem retryLoopAux_fst_ge (script : Nat → AttemptOutcome) :
    ∀ (fuel : Nat) (lastFail : Int) (stuck attempt : Nat),
    attempt ≤ (retryLoopAux script lastFail stuck attempt fuel).1 := by
  intro fuel
  induction fuel with
  | zero => intro lf st a; simp [retryLoopAux]
  | succ f ih =>
    intro lf st a
    simp only [retryLoopAux]
    cases script a with
    | parseFailed => exact le_trans (Nat.le_succ a) (ih lf st (a + 1))
    | noActions => exact le_trans (Nat.le_succ a) (ih lf st (a + 1))
    | chainOk => exact Nat.le_succ a
    | failAt i =>
      dsimp only
      by_cases h2 : (if (i : Int) ≤ lf then st + 1 else 0) ≥ 2
      · rw [if_pos h2]
        exact Nat.le_succ a
      · rw [if_neg h2]
        by_cases h3 : a < maxExecRetries
        · rw [if_pos h3]
          exact le_trans (Nat.le_succ a) (ih _ _ (a + 1))
        · rw [if_neg h3]
          exact Nat.le_succ a

theorem retryLoopAux_fst_ge_succ (script : Nat → AttemptOutcome)
    (fuel : Nat) (lastFail : Int) (stuck attempt : Nat) (hf : 1 ≤ fuel) :
    attempt + 1 ≤ (retryLoopAux script lastFail stuck attempt fuel).1 := by
  obtain ⟨f, rfl⟩ : ∃ f, fuel = f + 1 :=
    ⟨fuel - 1, by omega⟩
  simp only [retryLoopAux]
  cases script attempt with
  | parseFailed => exact retryLoopAux_fst_ge script f _ _ (attempt + 1)
  | noActions => exact retryLoopAux_fst_ge script f _ _ (attempt + 1)
  | chainOk => exact Nat.le_refl _
  | failAt i =>
    dsimp only
    by_cases h2 : (if (i : Int) ≤ lastFail then stuck + 1 else 0) ≥ 2
    · rw [if_pos h2]
    · rw [if_neg h2]
      by_cases h3 : attempt < maxExecRetries
      · rw [if_pos h3]
        exact retryLoopAux_fst_ge script f _ _ (attempt + 1)
      · rw [if_neg h3]

theorem retryLoopAux_succ (script : Nat → AttemptOutcome)
    (lf : Int) (st a f : Nat) :
    retryLoopAux script lf st a (f + 1) =
      match script a with
      | .parseFailed => retryLoopAux script lf st (a + 1) f
      | .noActions => retryLoopAux script lf st (a + 1) f
      | .chainOk => (a + 1, .completed)
      | .failAt i =>
        let stuckAfter := if (i : Int) ≤ lf then st + 1 else 0
        if stuckAfter ≥ 2 then (a + 1, .stuck i)
        else if a < maxExecRetries then
          retryLoopAux script (i : Int) stuckAfter (a + 1) f
        else (a + 1, .exhausted i) := rfl

/-- C3 (amended): escalation requires the stuck counter to reach 2, i.e.
two consecutive non-advancing attempts after a failing attempt.  Three
consecutive executor failures whose indices never advance (each at most
the previous failure index) escalate as stuck after exactly the third
attempt; any two failing attempts — whether the index regresses (2 then
1) or advances (1 then 3) — are always followed by a further executor
attempt, never by escalation. -/
theorem claim_C3_amended :
    (∀ (script : Nat → AttemptOutcome) (i0 i1 i2 : Nat),
      script 0 = .failAt i0 → script 1 = .failAt i1 → script 2 = .failAt i2 →
      i1 ≤ i0 → i2 ≤ i1 → execRetryLoop script = (3, .stuck i2))
    ∧ (∀ (script : Nat → AttemptOutcome) (i0 i1 : Nat),
      script 0 = .failAt i0 → script 1 = .failAt i1 →
      3 ≤ (execRetryLoop script).1) := by
  have hneg : ∀ (a : Nat), ¬((a : Int) ≤ -1) := by
    intro a h
    have : (0 : Int) ≤ (a : Int) := Int.natCast_nonneg a
    omega
  constructor
  · intro script i0 i1 i2 h0 h1 h2 hle1 hle2
    have hc1 : ((i1 : Int) ≤ (i0 : Int)) := by exact_mod_cast hle1
    have hc2 : ((i2 : Int) ≤ (i1 : Int)) := by exact_mod_cast hle2
    have step1 : retryLoopAux script (-1) 0 0 (3 + 1)
        = retryLoopAux script ((i0 : Int)) 0 1 (2 + 1) := by
      rw [retryLoopAux_succ, h0]
      dsimp only
      rw [if_neg (hneg i0)]
      norm_num [maxExecRetries]
    have step2 : retryLoopAux script ((i0 : Int)) 0 1 (2 + 1)
        = retryLoopAux script ((i1 : Int)) 1 2 (1 + 1) := by
      rw [retryLoopAux_succ, h1]
      dsimp only
      rw [if_pos hc1]
      norm_num [maxExecRetries]
    have step3 : retryLoopAux script ((i1 : Int)) 1 2 (1 + 1)
        = (3, RetryExit.stuck i2) := by
      rw [retryLoopAux_succ, h2]
      dsimp only
      rw [if_pos hc2]
      norm_num
    show retryLoopAux script (-1) 0 0 (maxExecRetries + 1) = (3, RetryExit.stuck i2)
    rw [show maxExecRetries + 1 = 3 + 1 from rfl, step1, step2, step3]
  · intro script i0 i1 h0 h1
    have step1 : retryLoopAux script (-1) 0 0 (3 + 1)
        = retryLoopAux script ((i0 : Int)) 0 1 (2 + 1) := by
      rw [retryLoopAux_succ, h0]
      dsimp only
      rw [if_neg (hneg i0)]
      norm_num [maxExecRetries]
    show 3 ≤ (retryLoopAux script (-1) 0 0 (maxExecRetries + 1)).1
    rw [show maxExecRetries + 1 = 3 + 1 from rfl, step1]
    by_cases hc : (i1 : Int) ≤ (i0 : Int)
    · have step2 : retryLoopAux script ((i0 : Int)) 0 1 (2 + 1)
          = retryLoopAux script ((i1 : Int)) 1 2 (1 + 1) := by
        rw [retryLoopAux_succ, h1]
        dsimp only
        rw [if_pos hc]
        norm_num [maxExecRetries]
      rw [step2]
      exact retryLoopAux_fst_ge_succ script (1 + 1) _ _ 2 (by norm_num)
    · have step2 : retryLoopAux script ((i0 : Int)) 0 1 (2 + 1)
          = retryLoopAux script ((i1 : Int)) 0 2 (1 + 1) := by
        rw [retryLoopAux_succ, h1]
        dsimp only
        rw [if_neg hc]
        norm_num [maxExecRetries]
      rw [step2]
      exact retryLoopAux_fst_ge_succ script (1 + 1) _ _ 2 (by norm_num)

/-- C3 (counterexample): two consecutive attempts failing at index 2 then
index 1 do not escalate — the stuck counter is only 1 — and a third
executor attempt runs (here succeeding), contradicting the claimed
"escalation with no third executor attempt". -/
theorem claim_C3_counterexample :
    execRetryLoop stuckScript21 = (3, RetryExit.completed) := by
  decide

/-- C3 (witness): the amended theorem applied to failures at indices
2, 1, 1: the loop escalates as stuck after exactly three attempts. -/
theorem claim_C3_witness :
    execRetryLoop stuckScript211 = (3, RetryExit.stuck 1) :=
  claim_C3_amended.1 stuckScript211 2 1 1 rfl rfl rfl (by decide) (by decide)

/-- C4 (counterexample): a NEW_TASK interrupt at iteration 5 leaves the
iteration counter at 5 — `Worker.run` never resets the local `iteration`
variable — contradicting "the iteration counter resets to 0". -/
theorem claim_C4_counterexample :
    ¬((handle_interrupt interruptedState .NEW_TASK "new objective"
        "guidance").iteration = 0) := by
  decide

/-- C4 (amended): a NEW_TASK interrupt replaces the Objective wholesale
with the updated text and clears the WorkingSet, the HistoryBuffer, the
MilestoneList and the plan, and replaces the last observation; the
iteration counter, however, keeps its current value — it is not reset. -/
theorem claim_C4_amended : ∀ (s : WorkerState) (t g : String),
    (handle_interrupt s .NEW_TASK t g).objective = t
    ∧ (handle_interrupt s .NEW_TASK t g).openFiles = []
    ∧ (handle_interrupt s .NEW_TASK t g).recentHistory = []
    ∧ (handle_interrupt s .NEW_TASK t g).completedMilestones = []
    ∧ (handle_interrupt s .NEW_TASK t g).currentPlan
        = "Initial state. Need to formulate a plan."
    ∧ (handle_interrupt s .NEW_TASK t g).lastObservation
        = "Task switched by user: " ++ g
    ∧ (handle_interrupt s .NEW_TASK t g).iteration = s.iteration := by
  intro s t g
  simp [handle_interrupt, reset_state]

/-- C8: the scheduler's per-job quota is a fixed 80% of total host memory
divided evenly over `min(len(hypotheses), 10)` workers; with 3 hypotheses
and pool cap 10 exactly 3 jobs are submitted and each receives
`available_mem / 3`. -/
theorem claim_C8_quota : ∀ (total : ℚ) (h1 h2 h3 : ResearchHypothesis),
    num_threads [h1, h2, h3] = 3
    ∧ available_mem total = total * (8 / 10)
    ∧ submittedJobs total [h1, h2, h3] =
        [(h1.name, available_mem total / 3), (h2.name, available_mem total / 3),
          (h3.name, available_mem total / 3)]
    ∧ (∀ hs : List ResearchHypothesis,
        mem_per_agent total hs = available_mem total / ((min hs.length 10 : Nat) : ℚ)) := by
  intro total h1 h2 h3
  refine ⟨rfl, rfl, ?_, fun hs => rfl⟩
  simp [submittedJobs, mem_per_agent, num_threads]

theorem milestones_foldl_step (completed : List String) (m : String)
    (ms : List String) :
    analyze_milestones_update completed (m :: ms) =
      analyze_milestones_update
        (if m ≠ "" && pyStrip m ≠ "" && !(completed.contains m)
          then completed ++ [pyStrip m] else completed) ms := rfl

/-- C9: the milestone-analysis update only appends (the previous list is
always a prefix of the new one), it leaves the list unchanged whenever
every incoming milestone string already occurs in it, and only the
explicit state reset clears the list. -/
theorem claim_C9_milestones :
    (∀ (completed ms : List String),
      ∃ t, analyze_milestones_update completed ms = completed ++ t)
    ∧ (∀ (completed ms : List String), (∀ m ∈ ms, m ∈ completed) →
      analyze_milestones_update completed ms = completed)
    ∧ (∀ (s : WorkerState) (obs : String),
      (reset_state s obs).completedMilestones = []) := by
  refine ⟨?_, ?_, fun s obs => rfl⟩
  · intro completed ms
    induction ms generalizing completed with
    | nil => exact ⟨[], by simp [analyze_milestones_update]⟩
    | cons m ms ih =>
      rw [milestones_foldl_step]
      by_cases hcond : (m ≠ "" && pyStrip m ≠ "" && !(completed.contains m)) = true
      · rw [if_pos hcond]
        obtain ⟨t, ht⟩ := ih (completed ++ [pyStrip m])
        exact ⟨pyStrip m :: t, by rw [ht, List.append_assoc]; rfl⟩
      · rw [if_neg hcond]
        exact ih completed
  · intro completed ms
    induction ms with
    | nil => intro h; simp [analyze_milestones_update]
    | cons m ms ih =>
      intro h
      have hc : completed.contains m = true :=
        contains_eq_true_iff.mpr (h m (List.mem_cons_self m ms))
      rw [milestones_foldl_step]
      have hcond : ¬((m ≠ "" && pyStrip m ≠ "" && !(completed.contains m)) = true) := by
        simp [hc]
        intro _ _
        exact contains_eq_true_iff.mp hc
      rw [if_neg hcond]
      exact ih (fun x hx => h x (List.mem_cons_of_mem m hx))

/-- C9 (witness): the no-change conjunct applied to a milestone text that
is already recorded. -/
theorem claim_C9_witness :
    analyze_milestones_update ["built the parser"] ["built the parser"]
      = ["built the parser"] :=
  claim_C9_milestones.2.1 ["built the parser"] ["built the parser"] (by decide)

/-! ## Claim C7: a failing action halts the chain -/

theorem run_chain_aux_executed_lt (env : ChainEnv) :
    ∀ (acts : List ActionSpec) (idx j : Nat),
    j ∈ (run_chain_aux env idx acts).executed → j < idx + acts.length := by
  intro acts
  induction acts with
  | nil => intro idx j h; simp [run_chain_aux] at h
  | cons a rest ih =>
    intro idx j h
    simp only [run_chain_aux] at h
    split at h
    · simp at h
    · split at h
      · simp at h
      · split at h
        · simp at h
          simp [List.length_cons]
          omega
        · split at h
          · simp at h
            simp [List.length_cons]
            omega
          · split at h
            · simp at h
              simp [List.length_cons]
              omega
            · simp at h
              rcases h with h | h
              · simp [List.length_cons]
                omega
              · have := ih (idx + 1) j h
                simp [List.length_cons]
                omega

theorem run_chain_aux_halt (env : ChainEnv) :
    ∀ (acts : List ActionSpec) (idx k : Nat) (a : ActionSpec) (nm : String),
    acts[k]? = some a → a.toolName = some nm → nm ≠ "" →
    nm ∈ env.tools → nm ∉ env.terminalTools → nm ≠ "get_user_input" →
    isFailureResult (env.results (idx + k)) = true → a.allowFailure = false →
    ∀ j ∈ (run_chain_aux env idx acts).executed, j ≤ idx + k := by
  intro acts
  induction acts with
  | nil =>
    intro idx k a nm hk
    simp at hk
  | cons b rest ih =>
    intro idx k a nm hk hnm hne htools hterm hgui hfail hallow j hj
    cases k with
    | zero =>
      have hba : b = a := by simpa using hk
      subst hba
      rw [Nat.add_zero] at hfail ⊢
      have hct : env.tools.contains nm = true := contains_eq_true_iff.mpr htools
      have htf : env.terminalTools.contains nm = false :=
        contains_eq_false_iff.mpr hterm
      simp only [run_chain_aux, hnm, Option.getD_some, hct, htf, hfail, hallow,
        Bool.not_true, Bool.not_false, Bool.and_self, if_neg hne, if_neg hgui,
        Bool.false_eq_true, if_false, Bool.true_and] at hj
      simp at hj
      omega
    | succ kp =>
      have hkrest : rest[kp]? = some a := by simpa using hk
      have hfail2 : isFailureResult (env.results ((idx + 1) + kp)) = true := by
        have hidx : (idx + 1) + kp = idx + (kp + 1) := by omega
        rw [hidx]
        exact hfail
      simp only [run_chain_aux] at hj
      split at hj
      · simp at hj
      · split at hj
        · simp at hj
        · split at hj
          · simp at hj
            omega
          · split at hj
            · simp at hj
              omega
            · split at hj
              · simp at hj
                omega
              · simp at hj
                rcases hj with hj | hj
                · omega
                · have := ih (idx + 1) kp a nm hkrest hnm hne htools hterm hgui
                    hfail2 hallow j hj
                  omega

/-- C7: within one execution attempt over an action chain, if the action
at index `i` is a normal tool action (known, non-terminal, not a user
input request) whose result carries the recognized failure marker and
which does not carry `allow_failure`, then every index at which a tool is
invoked in that attempt is at most `i` — no action after index `i`
executes. -/
theorem claim_C7_chain_halts :
    ∀ (env : ChainEnv) (actions : List ActionSpec) (i : Nat) (a : ActionSpec)
      (nm : String),
    actions[i]? = some a → a.toolName = some nm → nm ≠ "" →
    nm ∈ env.tools → nm ∉ env.terminalTools → nm ≠ "get_user_input" →
    isFailureResult (env.results i) = true → a.allowFailure = false →
    ∀ j ∈ (run_chain env actions).executed, j ≤ i := by
  intro env actions i a nm hk hnm hne htools hterm hgui hfail hallow j hj
  unfold run_chain at hj
  by_cases hi : i < 15
  · have hk2 : (truncate_actions actions)[i]? = some a := by
      unfold truncate_actions
      split
      · rw [List.getElem?_take_of_lt hi]
        exact hk
      · exact hk
    have := run_chain_aux_halt env (truncate_actions actions) 0 i a nm hk2 hnm
      hne htools hterm hgui (by simpa using hfail) hallow j hj
    omega
  · have hlen : (truncate_actions actions).length ≤ 15 := by
      unfold truncate_actions
      split
      · simp
      · omega
    have := run_chain_aux_executed_lt env (truncate_actions actions) 0 j hj
    omega

/-- C7 (witness): in a three-action chain whose second action is a
`run_command` returning `COMMAND FAILED` without `allow_failure`, the
third action never executes. -/
theorem claim_C7_witness : 2 ∉ (run_chain failEnv failActions).executed :=
  fun h =>
    absurd
      (claim_C7_chain_halts failEnv failActions 1 ⟨some "run_command", false⟩
        "run_command" rfl rfl (by decide) (by decide) (by decide) (by decide)
        (by decide) rfl 2 h)
      (by decide)

/-! ## Claim C5: verbatim summaries for short single-action chains -/

/-- C5 (counterexample): a single successful `run_command` action (an
`ls`-style listing well under 200 characters) does *not* use the raw
result verbatim: line 700 of worker.py explicitly excludes `run_command`
from the verbatim path, so the summarizer is invoked and the next
observation is the summarizer output, not the raw chain output. -/
theorem claim_C5_counterexample :
    run_iteration_once fixedSummarizer lsEnv lsActions
      = some ("CONDENSED SUMMARY", true)
    ∧ "CONDENSED SUMMARY" ≠ joinWith "\n\n" (run_chain lsEnv lsActions).parts := by
  decide

/-- C5 (amended): for a single-action chain whose tool is *not*
`run_command` (known, non-terminal, not a user-input request), succeeding
with combined raw output shorter than 200 characters, the Summarize phase
uses the combined raw output verbatim with no summarizer call, and the
next observation equals that output exactly. -/
theorem claim_C5_amended :
    ∀ (summarizer : String → String → String) (env : ChainEnv) (nm : String)
      (allowF : Bool),
    nm ≠ "" → nm ∈ env.tools → nm ∉ env.terminalTools → nm ≠ "get_user_input" →
    nm ≠ "run_command" → isFailureResult (env.results 0) = false →
    ("Action 1 (" ++ nm ++ "):\n" ++ env.results 0).length < 200 →
    run_iteration_once summarizer env [⟨some nm, allowF⟩]
      = some ("Action 1 (" ++ nm ++ "):\n" ++ env.results 0, false) := by
  intro summarizer env nm allowF hne htools hterm hgui hrc hfail hlen
  have hct : env.tools.contains nm = true := contains_eq_true_iff.mpr htools
  have htf : env.terminalTools.contains nm = false := contains_eq_false_iff.mpr hterm
  have hcr : run_chain_aux env 0 [⟨some nm, allowF⟩]
      = ⟨[0], [nm], ["Action 1 (" ++ nm ++ "):\n" ++ env.results 0], -1, .ok⟩ := by
    simp only [run_chain_aux, Option.getD_some, hct, htf, hfail, if_neg hne,
      if_neg hgui, Bool.not_true, Bool.false_eq_true, if_false, Bool.false_and]
    rfl
  have htrunc : truncate_actions [(⟨some nm, allowF⟩ : ActionSpec)]
      = [⟨some nm, allowF⟩] := by
    unfold truncate_actions
    norm_num
  have hbne : ((some nm : Option String) != some "run_command") = true := by
    simp [bne, hrc]
  unfold run_iteration_once
  rw [htrunc]
  dsimp only
  rw [hcr]
  dsimp only
  simp only [summarize_attempt, joinWith, List.isEmpty_cons, hbne,
    decide_eq_true hlen, Bool.and_true, Bool.true_and, Bool.and_self,
    Bool.false_eq_true, if_false, if_true]
  simp [hbne]

/-- C5 (witness): a single short successful `open_file` action is passed
through verbatim with no summarizer invocation. -/
theorem claim_C5_witness :
    run_iteration_once fixedSummarizer shortEnv shortActions
      = some ("Action 1 (open_file):\nOpened /tmp/a.txt", false) :=
  claim_C5_amended fixedSummarizer shortEnv "open_file" false (by decide)
    (by decide) (by decide) (by decide) (by decide) (by decide) (by decide)

/-! ## Claim C6: history capacity and the formatter character budget -/

theorem strlen_append (a b : String) : (a ++ b).length = a.length + b.length := by
  cases a
  cases b
  exact List.length_append ..

theorem historyAppend_foldl (rs : List HistoryStep) :
    rs.foldl historyAppend [] = rs.drop (rs.length - histCapacity) := by
  induction rs using List.reverseRecOn with
  | nil => simp
  | append_singleton rs r ih =>
    rw [List.foldl_append, ih, List.foldl_cons, List.foldl_nil]
    simp only [historyAppend]
    by_cases hlt : rs.length < histCapacity
    · have h0 : rs.length - histCapacity = 0 := by omega
      have h1 : (rs ++ [r]).length - histCapacity = 0 := by
        simp
        omega
      have hcond : ¬((rs.drop (rs.length - histCapacity) ++ [r]).length > histCapacity) := by
        rw [h0, List.drop_zero]
        simp
        omega
      rw [if_neg hcond, h0, List.drop_zero, h1, List.drop_zero]
    · have hge : histCapacity ≤ rs.length := by omega
      have hdlen : (rs.drop (rs.length - histCapacity)).length = histCapacity := by
        simp [List.length_drop]
        omega
      have hcond : (rs.drop (rs.length - histCapacity) ++ [r]).length > histCapacity := by
        simp [hdlen]
      rw [if_pos hcond]
      have hd1 : (rs.drop (rs.length - histCapacity) ++ [r]).length - histCapacity = 1 := by
        simp [hdlen]
      rw [hd1]
      rw [List.drop_append_eq_append_drop]
      rw [hdlen]
      have hone : (1 : Nat) - histCapacity = 0 := by
        simp [histCapacity]
      rw [hone, List.drop_zero, List.drop_drop]
      rw [List.drop_append_eq_append_drop]
      have h2 : ((rs ++ [r]).length - histCapacity) - rs.length = 0 := by
        simp
        omega
      have h3 : rs.length - histCapacity + 1 = (rs ++ [r]).length - histCapacity := by
        simp
        omega
      rw [h2, List.drop_zero, h3]

theorem sumLen_reverse (l : List String) : sumLen l.reverse = sumLen l := by
  simp [sumLen, List.sum_reverse]

theorem joinWith_newline_le : ∀ l : List String,
    (joinWith "\n" l).length ≤ sumLen l + l.length := by
  intro l
  induction l with
  | nil => simp [joinWith, sumLen]
  | cons x xs ih =>
    cases xs with
    | nil => simp [joinWith, sumLen]
    | cons y ys =>
      rw [show joinWith "\n" (x :: y :: ys) = x ++ "\n" ++ joinWith "\n" (y :: ys)
        from rfl]
      rw [strlen_append, strlen_append]
      simp only [sumLen, List.map_cons, List.sum_cons, List.length_cons] at ih ⊢
      have hnl : ("\n" : String).length = 1 := rfl
      omega

theorem formatLoop_length_le (total budget : Nat) :
    ∀ (items : List HistoryStep) (idxFromEnd used count : Nat),
    (formatLoop total budget items idxFromEnd used count).length ≤ items.length + 1 := by
  intro items
  induction items with
  | nil => intro idxFromEnd used count; simp [formatLoop]
  | cons step rest ih =>
    intro idxFromEnd used count
    rw [formatLoop]
    split
    · simp
    · simp only [List.length_cons]
      have := ih (idxFromEnd + 1) (used + (historyEntry idxFromEnd step).length)
        (count + 1)
      omega

theorem formatLoop_sum_le (total budget : Nat) :
    ∀ (items : List HistoryStep) (idxFromEnd used count : Nat), used ≤ budget →
    ∃ r, r ≤ total ∧
      sumLen (formatLoop total budget items idxFromEnd used count) + used
        ≤ budget + (omissionMarker r).length := by
  intro items
  induction items with
  | nil =>
    intro idxFromEnd used count hused
    refine ⟨0, Nat.zero_le _, ?_⟩
    simp [formatLoop, sumLen]
    omega
  | cons step rest ih =>
    intro idxFromEnd used count hused
    rw [formatLoop]
    by_cases hov : used + (historyEntry idxFromEnd step).length > budget
    · refine ⟨total - count, Nat.sub_le _ _, ?_⟩
      rw [if_pos hov]
      simp [sumLen]
      omega
    · rw [if_neg hov]
      obtain ⟨r, hr, hbound⟩ := ih (idxFromEnd + 1)
        (used + (historyEntry idxFromEnd step).length) (count + 1) (by omega)
      refine ⟨r, hr, ?_⟩
      simp only [sumLen, List.map_cons, List.sum_cons] at hbound ⊢
      omega

/-- C6 (amended): the history buffer always holds exactly the most recent
`histCapacity` (50) appended records, the oldest evicted first.  The
tiered rendering bounds the *sum of the rendered entries* by the
`max_history_tokens * 4` character budget; the full rendering may exceed
the budget by the joining newlines (at most one per stored record, plus
one) and by one omission marker, and by no more. -/
theorem claim_C6_amended :
    (∀ rs : List HistoryStep,
      rs.foldl historyAppend [] = rs.drop (rs.length - histCapacity))
    ∧ (∀ (maxTokens : Nat) (h : List HistoryStep),
      ∃ r, r ≤ h.length ∧
        (format_history maxTokens h).length
          ≤ maxTokens * 4 + h.length + 1 + (omissionMarker r).length) := by
  constructor
  · exact historyAppend_foldl
  · intro maxTokens h
    by_cases hemp : h.isEmpty
    · refine ⟨0, Nat.zero_le _, ?_⟩
      unfold format_history
      rw [if_pos hemp]
      have hm : ("No recent history." : String).length ≤ (omissionMarker 0).length := by
        decide
      omega
    · unfold format_history
      rw [if_neg hemp]
      obtain ⟨r, hr, hbound⟩ := formatLoop_sum_le h.length (maxTokens * 4)
        h.reverse 0 0 0 (Nat.zero_le _)
      refine ⟨r, hr, ?_⟩
      show (joinWith "\n"
          (formatLoop h.length (maxTokens * 4) h.reverse 0 0 0).reverse).length
        ≤ maxTokens * 4 + h.length + 1 + (omissionMarker r).length
      have hjoin := joinWith_newline_le
        (formatLoop h.length (maxTokens * 4) h.reverse 0 0 0).reverse
      rw [sumLen_reverse, List.length_reverse] at hjoin
      have hcount := formatLoop_length_le h.length (maxTokens * 4) h.reverse 0 0 0
      rw [List.length_reverse] at hcount
      omega

theorem bigSummary_length : bigSummary.length = 99957 := by
  show (List.replicate 99957 'a').length = 99957
  exact List.length_replicate 99957 'a'

theorem histNew_entry_eq :
    historyEntry 0 histNew
      = "STEP 2 [FULL]:\nAction: a\nResult Summary: " ++ bigSummary ++ "\n" := rfl

theorem histNew_entry_length : (historyEntry 0 histNew).length = 99999 := by
  rw [histNew_entry_eq, strlen_append, strlen_append, bigSummary_length]
  rfl

theorem histOld_entry_length : (historyEntry 1 histOld).length = 43 := rfl

theorem overBudget_loop_eq :
    formatLoop 2 100000 [histNew, histOld] 0 0 0
      = [historyEntry 0 histNew, omissionMarker 1] := by
  rw [formatLoop]
  rw [if_neg (by rw [histNew_entry_length]; omega)]
  rw [formatLoop]
  rw [if_pos (by rw [histNew_entry_length, histOld_entry_length]; omega)]

/-- C6 (counterexample): a two-record history whose newest record renders
to 99999 characters makes `_format_history` (budget 25000 * 4 = 100000
characters) return a string of 100053 characters: the omission marker and
the joining newline are not counted against the budget, so the rendering
exceeds the configured character budget. -/
theorem claim_C6_counterexample :
    (format_history max_history_tokens overBudgetHistory).length
      > max_history_tokens * 4 := by
  have h1 : format_history max_history_tokens overBudgetHistory
      = joinWith "\n" (formatLoop overBudgetHistory.length (max_history_tokens * 4)
          overBudgetHistory.reverse 0 0 0).reverse := by
    unfold format_history
    rw [if_neg (by decide)]
  have heq : format_history max_history_tokens overBudgetHistory
      = joinWith "\n" [omissionMarker 1, historyEntry 0 histNew] := by
    rw [h1, show overBudgetHistory.length = 2 from rfl,
      show max_history_tokens * 4 = 100000 from rfl,
      show overBudgetHistory.reverse = [histNew, histOld] from rfl,
      overBudget_loop_eq]
    rfl
  rw [heq]
  rw [show joinWith "\n" [omissionMarker 1, historyEntry 0 histNew]
      = (omissionMarker 1 ++ "\n") ++ historyEntry 0 histNew from rfl]
  rw [strlen_append, histNew_entry_length]
  rw [show (omissionMarker 1 ++ "\n").length = 54 from rfl]
  rw [show max_history_tokens * 4 = 100000 from rfl]
  omega

end Aeon